import Mathlib

/-!
Verification of the HDLC-style framing codec and RCP channel interface of
`src/posix/platform/hdlc_interface.hpp`.

The repository ships only the interface header (`HdlcInterface`, with
`kMaxFrameSize = 2048`, callbacks, `Init` / `Deinit` / `Read` / `SendFrame`
declarations).  The codec body (`Hdlc::Encoder` / `Hdlc::Decoder` from
`hdlc.hpp`) and the interface implementation are not part of the sources, so
every operation below is modelled from the specification: a byte-stuffed
framing with a start/end delimiter, an escape byte, a fixed XOR transform,
and a trailing 16-bit integrity check computed over the unescaped payload
bytes.  Bytes are plain naturals; lists stand for byte buffers.
-/

namespace Hdlc

/-- Frame boundary delimiter byte.  Modelled from the spec: a reserved byte
value marking frame start and end (HDLC-style flag, 0x7E). -/
def kFlagByte : Nat := 126

/-- Escape byte.  Modelled from the spec: a reserved byte value signaling
that the next byte is a transformed literal (HDLC-style escape, 0x7D). -/
def kEscapeByte : Nat := 125

/-- Fixed transformation constant.  Modelled from the spec: escaped bytes
are emitted XORed with this constant (0x20). -/
def kXfrmByte : Nat := 32

/-- Maximum frame size, from `HdlcInterface::kMaxFrameSize` in
`hdlc_interface.hpp` (2048 bytes); it is also the capacity of the decoder
buffer `mDecoderBuffer`. -/
def kMaxFrameSize : Nat := 2048

/-- Sum of a list of bytes. -/
def byteSum : List Nat → Nat
  | [] => 0
  | b :: rest => b + byteSum rest

/-- Modelled from the spec: the integrity check value, a fixed-width
(16-bit) integrity code computed over the unescaped payload bytes only.
The concrete code (the source's CRC lives in the absent `hdlc.cpp`) is
modelled as a 16-bit sum over the payload bytes. -/
def checksum16 (p : List Nat) : Nat := byteSum p % 65536

/-- Modelled from the spec: the check value is emitted in a fixed byte
order, low byte first. -/
def checkBytes (c : Nat) : List Nat := [c % 256, c / 256]

/-- Value of the trailing check bytes accumulated by the decoder
(low byte first, matching `checkBytes`). -/
def fcsValue (chk : List Nat) : Nat := chk.foldr (fun b acc => b + 256 * acc) 0

/-- Modelled from the spec: `stuffed(b)` emits `b` verbatim unless `b` is
the delimiter or the escape value, in which case it emits the escape value
followed by `b` XORed with the fixed transformation constant. -/
def stuffByte (b : Nat) : List Nat :=
  if b = kFlagByte ∨ b = kEscapeByte then [kEscapeByte, b ^^^ kXfrmByte] else [b]

/-- Byte-stuffing of a whole buffer. -/
def stuff : List Nat → List Nat
  | [] => []
  | b :: rest => stuffByte b ++ stuff rest

/-- Modelled from the spec: the encoder's wire format, bit-exact:
`DELIM | stuffed(payload bytes) | stuffed(check-value bytes) | DELIM`. -/
def encode (p : List Nat) : List Nat :=
  kFlagByte :: (stuff p ++ stuff (checkBytes (checksum16 p)) ++ [kFlagByte])

/-- Events dispatched by the decoder: the frame-received hook
(`HandleHdlcFrame`, forwarded to `Callbacks::HandleReceivedFrame`) and the
error hook (`HandleHdlcError`) with the two decode-time errors. -/
inductive DecodeEvent where
  | frameReceived (payload : List Nat)
  | frameOverflow
  | integrityCheckFailed
deriving DecidableEq, Repr

/-- Modelled from the spec: the decoder state owned by the interface —
the `decoding` flag (`mIsDecoding`), the fixed-capacity accumulator backed
by `mDecoderBuffer`, and the escape-pending flag.  The integrity
accumulator is recomputed from the buffer at frame end. -/
structure DecoderState where
  isDecoding : Bool
  buffer : List Nat
  escapePending : Bool
deriving DecidableEq, Repr

/-- The idle decoder state: not decoding, empty buffer, no escape pending. -/
def initState : DecoderState := ⟨false, [], false⟩

/-- Modelled from the spec: appending one unescaped byte to the decode
buffer; if the buffer is at capacity the frame is discarded with a
`FrameOverflow` notification and the decoder returns to idle. -/
def appendByte (st : DecoderState) (b : Nat) : DecoderState × List DecodeEvent :=
  if st.buffer.length < kMaxFrameSize then
    ({ isDecoding := true, buffer := st.buffer ++ [b], escapePending := false }, [])
  else (initState, [DecodeEvent.frameOverflow])

/-- Modelled from the spec: frame finalization at an end delimiter.  The
last two accumulated bytes are the provisional check bytes; the integrity
code over the rest is verified against them.  On match the frame-received
hook fires with the payload, otherwise `IntegrityCheckFailed`; either way
the decoder returns to idle. -/
def finishFrame (buf : List Nat) : List DecodeEvent :=
  if checksum16 (buf.take (buf.length - 2)) = fcsValue (buf.drop (buf.length - 2)) then
    [DecodeEvent.frameReceived (buf.take (buf.length - 2))]
  else [DecodeEvent.integrityCheckFailed]

/-- Modelled from the spec: the decoder state machine, one wire byte at a
time.  Idle discards everything but a start delimiter.  While decoding, an
escape-pending byte is un-transformed and appended; a delimiter either
restarts the frame silently (fewer than two bytes accumulated, the
implicit-abort/new-start case — a complete check value cannot be present)
or finalizes it; an escape byte sets escape-pending; anything else is
appended. -/
def decodeByte (st : DecoderState) (b : Nat) : DecoderState × List DecodeEvent :=
  if st.isDecoding then
    if st.escapePending then
      appendByte st (b ^^^ kXfrmByte)
    else if b = kFlagByte then
      if st.buffer.length < 2 then ({ isDecoding := true, buffer := [], escapePending := false }, [])
      else (initState, finishFrame st.buffer)
    else if b = kEscapeByte then ({ st with escapePending := true }, [])
    else appendByte st b
  else if b = kFlagByte then ({ isDecoding := true, buffer := [], escapePending := false }, [])
  else (st, [])

/-- Streaming decode of one chunk of newly arrived bytes
(`HdlcInterface::Decode`): the state threads through, events accumulate. -/
def decodeBytes : DecoderState → List Nat → DecoderState × List DecodeEvent
  | st, [] => (st, [])
  | st, b :: rest =>
    let r1 := decodeByte st b
    let r2 := decodeBytes r1.1 rest
    (r2.1, r1.2 ++ r2.2)

/-- Feeding several successive chunks to the streaming decoder, as separate
`Decode` calls whose state persists between calls. -/
def decodeChunks : DecoderState → List (List Nat) → DecoderState × List DecodeEvent
  | st, [] => (st, [])
  | st, c :: rest =>
    let r1 := decodeBytes st c
    let r2 := decodeChunks r1.1 rest
    (r2.1, r1.2 ++ r2.2)

/-- A well-formed frame body between the two delimiters: no delimiter byte
occurs (neither verbatim nor right after an escape), and no escape byte
dangles at the end. -/
def okBody : List Nat → Bool
  | [] => true
  | b :: rest =>
    if b = kEscapeByte then
      match rest with
      | [] => false
      | t :: r => (t != kFlagByte) && okBody r
    else (b != kFlagByte) && okBody rest

/-- The unescaped contents of a frame body: an escape byte un-transforms
the byte after it, everything else passes through. -/
def unstuff : List Nat → List Nat
  | [] => []
  | b :: rest =>
    if b = kEscapeByte then
      match rest with
      | [] => []
      | t :: r => (t ^^^ kXfrmByte) :: unstuff r
    else b :: unstuff rest

/-- Error kinds of the interface operations, mirroring the `otError`
values documented in `hdlc_interface.hpp` (`OT_ERROR_NONE`,
`OT_ERROR_ALREADY`, `OT_ERROR_INVALID_ARGS`, `OT_ERROR_NO_BUFS`,
`OT_ERROR_FAILED`). -/
inductive OtError where
  | ok
  | already
  | invalidArgs
  | noBufs
  | failed
deriving DecidableEq, Repr

/-- The interface object: the channel handle (`mSockFd`, `none` when the
interface is uninitialized) and the decoder state it owns. -/
structure Interface where
  sockFd : Option Nat
  decoder : DecoderState
deriving DecidableEq, Repr

/-- A freshly constructed interface: no channel handle, idle decoder. -/
def Interface.mkNew : Interface := ⟨Option.none, initState⟩

/-- Modelled from the spec: `HdlcInterface::Init` (its body is not in the
sources).  Fails with `OT_ERROR_ALREADY` if a channel handle is already
held, leaving the interface untouched; otherwise the external channel
acquisition (device open or subprocess spawn, here the `openResult`
argument) either fails — `OT_ERROR_INVALID_ARGS` — or yields a handle,
which is stored while the decoder state is reset to idle. -/
def Interface.init (ifc : Interface) (openResult : Option Nat) : Interface × OtError :=
  match ifc.sockFd with
  | some _ => (ifc, OtError.already)
  | none =>
    match openResult with
    | none => (ifc, OtError.invalidArgs)
    | some fd => (⟨some fd, initState⟩, OtError.ok)

/-- Modelled from the spec: `HdlcInterface::Deinit` releases the channel
handle if held (idempotent, safe before `Init`) and resets the decoder
state to idle. -/
def Interface.deinit (_ : Interface) : Interface := ⟨Option.none, initState⟩

/-- Outcome of one `Read` call as seen by the owner. -/
inductive ReadOutcome where
  | ok
  | channelFailure
deriving DecidableEq, Repr

/-- Modelled from the spec: `HdlcInterface::Read` (its body is not in the
sources) performs exactly one read from the channel — `readResult` is that
single read's result: `none` for a read error, `some bs` for `bs` bytes —
and streams the bytes through the decoder.  A zero-length or error read is
reported to the owner as a channel failure, without retrying and without
touching the decoder. -/
def readStep (dec : DecoderState) (readResult : Option (List Nat)) :
    DecoderState × List DecodeEvent × ReadOutcome :=
  match readResult with
  | none => (dec, [], ReadOutcome.channelFailure)
  | some [] => (dec, [], ReadOutcome.channelFailure)
  | some (b :: rest) =>
    let r := decodeBytes dec (b :: rest)
    (r.1, r.2, ReadOutcome.ok)

/-- Modelled from the spec: the capacity of the internal encode scratch
buffer, sized for the worst-case stuffed expansion of a max-size frame:
two delimiters, up to two bytes per payload byte, and up to four bytes for
the stuffed 16-bit check value. -/
def kEncodeBufferSize : Nat := 2 * kMaxFrameSize + 6

/-- Outcome of a `SendFrame` call: the full encoded wire sequence handed
to the channel write, or `OT_ERROR_NO_BUFS` with nothing written. -/
inductive SendOutcome where
  | sent (wire : List Nat)
  | noBufs
deriving DecidableEq, Repr

/-- Modelled from the spec: `HdlcInterface::SendFrame` (its body is not in
the sources) encodes the frame into the bounded scratch buffer; when the
encoded output does not fit, the send is abandoned cleanly with
`NoBufferSpace` and no bytes are written; otherwise the whole encoded
buffer is written.  Neither path touches the interface state. -/
def sendFrame (ifc : Interface) (p : List Nat) : Interface × SendOutcome :=
  if (encode p).length ≤ kEncodeBufferSize then (ifc, SendOutcome.sent (encode p))
  else (ifc, SendOutcome.noBufs)

/-! ### Unfolding lemmas for the streaming decoder -/

theorem decodeBytes_nil (st : DecoderState) : decodeBytes st [] = (st, []) := rfl

theorem decodeBytes_cons (st : DecoderState) (b : Nat) (rest : List Nat) :
    decodeBytes st (b :: rest) =
      ((decodeBytes (decodeByte st b).1 rest).1,
        (decodeByte st b).2 ++ (decodeBytes (decodeByte st b).1 rest).2) := rfl

theorem decodeBytes_append (st : DecoderState) (xs ys : List Nat) :
    decodeBytes st (xs ++ ys) =
      ((decodeBytes (decodeBytes st xs).1 ys).1,
        (decodeBytes st xs).2 ++ (decodeBytes (decodeBytes st xs).1 ys).2) := by
  induction xs generalizing st with
  | nil => simp [decodeBytes_nil]
  | cons b rest ih => simp [decodeBytes_cons, ih, List.append_assoc]

theorem decodeBytes_cons_of (st st' : DecoderState) (b : Nat) (evs : List DecodeEvent)
    (rest : List Nat) (h : decodeByte st b = (st', evs)) :
    decodeBytes st (b :: rest) =
      ((decodeBytes st' rest).1, evs ++ (decodeBytes st' rest).2) := by
  rw [decodeBytes_cons, h]

theorem decodeBytes_append_of (st st' : DecoderState) (xs ys : List Nat)
    (evs : List DecodeEvent) (h : decodeBytes st xs = (st', evs)) :
    decodeBytes st (xs ++ ys) = ((decodeBytes st' ys).1, evs ++ (decodeBytes st' ys).2) := by
  rw [decodeBytes_append, h]

theorem decodeChunks_eq_join (st : DecoderState) (cs : List (List Nat)) :
    decodeChunks st cs = decodeBytes st cs.flatten := by
  induction cs generalizing st with
  | nil => simp [decodeChunks, decodeBytes_nil]
  | cons c rest ih => simp [decodeChunks, ih, decodeBytes_append]

theorem decodeByte_start (st : DecoderState) (hd : st.isDecoding = false) :
    decodeByte st kFlagByte = (⟨true, [], false⟩, []) := by
  simp [decodeByte, hd]

theorem decodeByte_not_decoding (st : DecoderState) (b : Nat) (hd : st.isDecoding = false)
    (hb : b ≠ kFlagByte) : decodeByte st b = (st, []) := by
  simp [decodeByte, hd, hb]

theorem decodeByte_pending (buf : List Nat) (b : Nat) :
    decodeByte ⟨true, buf, true⟩ b = appendByte ⟨true, buf, true⟩ (b ^^^ kXfrmByte) := by
  simp [decodeByte]

theorem decodeByte_esc (buf : List Nat) :
    decodeByte ⟨true, buf, false⟩ kEscapeByte = (⟨true, buf, true⟩, []) := by
  simp [decodeByte, kEscapeByte, kFlagByte]

theorem decodeByte_lit (buf : List Nat) (b : Nat) (h1 : b ≠ kFlagByte) (h2 : b ≠ kEscapeByte) :
    decodeByte ⟨true, buf, false⟩ b = appendByte ⟨true, buf, false⟩ b := by
  simp [decodeByte, h1, h2]

theorem decodeByte_flag_restart (buf : List Nat) (h : buf.length < 2) :
    decodeByte ⟨true, buf, false⟩ kFlagByte = (⟨true, [], false⟩, []) := by
  simp [decodeByte, h]

theorem decodeByte_flag_finish (buf : List Nat) (h : 2 ≤ buf.length) :
    decodeByte ⟨true, buf, false⟩ kFlagByte = (initState, finishFrame buf) := by
  have h' : ¬ buf.length < 2 := by omega
  simp [decodeByte, h']

theorem appendByte_ok (d : Bool) (buf : List Nat) (p : Bool) (b : Nat)
    (h : buf.length < kMaxFrameSize) :
    appendByte ⟨d, buf, p⟩ b = (⟨true, buf ++ [b], false⟩, []) := by
  simp [appendByte, h]

theorem appendByte_full (d : Bool) (buf : List Nat) (p : Bool) (b : Nat)
    (h : kMaxFrameSize ≤ buf.length) :
    appendByte ⟨d, buf, p⟩ b = (initState, [DecodeEvent.frameOverflow]) := by
  have h' : ¬ buf.length < kMaxFrameSize := by omega
  simp [appendByte, h']

/-! ### Well-formed bodies and their decode behavior -/

theorem okBody_esc_cons (t : Nat) (r : List Nat) :
    okBody (kEscapeByte :: t :: r) = ((t != kFlagByte) && okBody r) := rfl

theorem okBody_lit_cons (b : Nat) (r : List Nat) (h : b ≠ kEscapeByte) :
    okBody (b :: r) = ((b != kFlagByte) && okBody r) := by
  rw [okBody.eq_def]
  simp [h]

theorem unstuff_esc_cons (t : Nat) (r : List Nat) :
    unstuff (kEscapeByte :: t :: r) = (t ^^^ kXfrmByte) :: unstuff r := rfl

theorem unstuff_lit_cons (b : Nat) (r : List Nat) (h : b ≠ kEscapeByte) :
    unstuff (b :: r) = b :: unstuff r := by
  rw [unstuff.eq_def]
  simp [h]

theorem okBody_no_flag (body : List Nat) (h : okBody body = true) :
    ∀ b ∈ body, b ≠ kFlagByte := by
  induction body using unstuff.induct with
  | case1 => simp
  | case2 => simp [okBody] at h
  | case3 t r ih =>
    rw [okBody_esc_cons, Bool.and_eq_true, bne_iff_ne] at h
    intro b hb
    rcases List.mem_cons.mp hb with rfl | hb
    · decide
    · rcases List.mem_cons.mp hb with rfl | hb
      · exact h.1
      · exact ih h.2 b hb
  | case4 b r hne ih =>
    rw [okBody_lit_cons _ _ hne, Bool.and_eq_true, bne_iff_ne] at h
    intro x hx
    rcases List.mem_cons.mp hx with rfl | hx
    · exact h.1
    · exact ih h.2 x hx

theorem discardFeed (bs : List Nat) (h : ∀ b ∈ bs, b ≠ kFlagByte) :
    decodeBytes initState bs = (initState, []) := by
  induction bs with
  | nil => rfl
  | cons b r ih =>
    rw [decodeBytes_cons_of initState initState b [] r
      (decodeByte_not_decoding initState b rfl (h b (List.mem_cons_self b r)))]
    rw [ih (fun x hx => h x (List.mem_cons_of_mem b hx))]
    rfl

theorem bodyFeed (body : List Nat) : ∀ buf : List Nat, okBody body = true →
    buf.length + (unstuff body).length ≤ kMaxFrameSize →
    decodeBytes ⟨true, buf, false⟩ body = (⟨true, buf ++ unstuff body, false⟩, []) := by
  induction body using unstuff.induct with
  | case1 => intro buf _ _; simp [decodeBytes_nil, unstuff]
  | case2 => intro buf h _; simp [okBody] at h
  | case3 t r ih =>
    intro buf h hlen
    rw [okBody_esc_cons, Bool.and_eq_true] at h
    rw [unstuff_esc_cons] at hlen ⊢
    have hb : buf.length < kMaxFrameSize := by
      simp only [List.length_cons] at hlen; omega
    rw [decodeBytes_cons_of _ _ _ _ _ (decodeByte_esc buf)]
    rw [decodeBytes_cons_of _ _ _ _ _ ((decodeByte_pending buf t).trans
      (appendByte_ok _ _ _ _ hb))]
    have hlen2 : (buf ++ [t ^^^ kXfrmByte]).length + (unstuff r).length ≤ kMaxFrameSize := by
      simp only [List.length_append, List.length_cons, List.length_nil] at hlen ⊢
      omega
    rw [ih (buf ++ [t ^^^ kXfrmByte]) h.2 hlen2]
    simp [List.append_assoc]
  | case4 b r hne ih =>
    intro buf h hlen
    rw [okBody_lit_cons _ _ hne, Bool.and_eq_true, bne_iff_ne] at h
    rw [unstuff_lit_cons _ _ hne] at hlen ⊢
    have hb : buf.length < kMaxFrameSize := by
      simp only [List.length_cons] at hlen; omega
    rw [decodeBytes_cons_of _ _ _ _ _ ((decodeByte_lit buf b h.1 hne).trans
      (appendByte_ok _ _ _ _ hb))]
    have hlen2 : (buf ++ [b]).length + (unstuff r).length ≤ kMaxFrameSize := by
      simp only [List.length_append, List.length_cons, List.length_nil] at hlen ⊢
      omega
    rw [ih (buf ++ [b]) h.2 hlen2]
    simp [List.append_assoc]

theorem overflowFeed (body : List Nat) : ∀ buf : List Nat, okBody body = true →
    buf.length ≤ kMaxFrameSize → kMaxFrameSize < buf.length + (unstuff body).length →
    decodeBytes ⟨true, buf, false⟩ body = (initState, [DecodeEvent.frameOverflow]) := by
  induction body using unstuff.induct with
  | case1 =>
    intro buf _ h1 h2
    rw [unstuff] at h2
    simp only [List.length_nil] at h2
    omega
  | case2 => intro buf h _ _; simp [okBody] at h
  | case3 t r ih =>
    intro buf h h1 h2
    rw [okBody_esc_cons, Bool.and_eq_true, bne_iff_ne] at h
    rw [unstuff_esc_cons] at h2
    simp only [List.length_cons] at h2
    rw [decodeBytes_cons_of _ _ _ _ _ (decodeByte_esc buf)]
    by_cases hb : buf.length < kMaxFrameSize
    · rw [decodeBytes_cons_of _ _ _ _ _ ((decodeByte_pending buf t).trans
        (appendByte_ok _ _ _ _ hb))]
      rw [ih (buf ++ [t ^^^ kXfrmByte]) h.2 (by simp; omega) (by simp; omega)]
      simp
    · rw [decodeBytes_cons_of _ _ _ _ _ ((decodeByte_pending buf t).trans
        (appendByte_full _ _ _ _ (by omega)))]
      rw [discardFeed r (okBody_no_flag r h.2)]
      simp
  | case4 b r hne ih =>
    intro buf h h1 h2
    rw [okBody_lit_cons _ _ hne, Bool.and_eq_true, bne_iff_ne] at h
    rw [unstuff_lit_cons _ _ hne] at h2
    simp only [List.length_cons] at h2
    by_cases hb : buf.length < kMaxFrameSize
    · rw [decodeBytes_cons_of _ _ _ _ _ ((decodeByte_lit buf b h.1 hne).trans
        (appendByte_ok _ _ _ _ hb))]
      rw [ih (buf ++ [b]) h.2 (by simp; omega) (by simp; omega)]
      simp
    · rw [decodeBytes_cons_of _ _ _ _ _ ((decodeByte_lit buf b h.1 hne).trans
        (appendByte_full _ _ _ _ (by omega)))]
      rw [discardFeed r (okBody_no_flag r h.2)]
      simp

/-- Feeding one whole delimited frame whose unescaped contents fit the
buffer: the decoder starts, accumulates, and finalizes. -/
theorem frameFeed (body : List Nat) (h : okBody body = true)
    (h2 : 2 ≤ (unstuff body).length) (hlen : (unstuff body).length ≤ kMaxFrameSize) :
    decodeBytes initState (kFlagByte :: (body ++ [kFlagByte])) =
      (initState, finishFrame (unstuff body)) := by
  rw [decodeBytes_cons_of _ _ _ _ _ (decodeByte_start initState rfl)]
  rw [decodeBytes_append_of _ _ _ _ _ (bodyFeed body [] h (by simpa using hlen))]
  rw [decodeBytes_cons_of _ _ _ _ _ (decodeByte_flag_finish _ (by simpa using h2))]
  rw [decodeBytes_nil]
  simp

/-- Feeding one whole delimited frame whose unescaped contents exceed the
buffer capacity: exactly one overflow notification, then the closing
delimiter starts a fresh frame. -/
theorem frameFeedOverflow (body : List Nat) (h : okBody body = true)
    (hlen : kMaxFrameSize < (unstuff body).length) :
    decodeBytes initState (kFlagByte :: (body ++ [kFlagByte])) =
      (⟨true, [], false⟩, [DecodeEvent.frameOverflow]) := by
  rw [decodeBytes_cons_of _ _ _ _ _ (decodeByte_start initState rfl)]
  rw [decodeBytes_append_of _ _ _ _ _ (overflowFeed body [] h (by simp [kMaxFrameSize])
    (by simpa using hlen))]
  rw [decodeBytes_cons_of _ _ _ _ _ (decodeByte_start initState rfl)]
  rw [decodeBytes_nil]
  simp

/-! ### The encoder's output is a well-formed body that unstuffs back -/

theorem stuffByte_not_special (b : Nat) (h1 : b ≠ kFlagByte) (h2 : b ≠ kEscapeByte) :
    stuffByte b = [b] := by
  simp [stuffByte, h1, h2]

theorem stuffByte_special (b : Nat) (h : b = kFlagByte ∨ b = kEscapeByte) :
    stuffByte b = [kEscapeByte, b ^^^ kXfrmByte] := by
  simp [stuffByte, h]

theorem okBody_stuffByte_append (b : Nat) (ys : List Nat) :
    okBody (stuffByte b ++ ys) = okBody ys := by
  by_cases h : b = kFlagByte ∨ b = kEscapeByte
  · rw [stuffByte_special b h, List.cons_append, List.cons_append, okBody_esc_cons]
    rcases h with rfl | rfl
    · simp [kFlagByte, kXfrmByte]
    · simp [kEscapeByte, kFlagByte, kXfrmByte]
  · push_neg at h
    rw [stuffByte_not_special b h.1 h.2, List.singleton_append, okBody_lit_cons _ _ h.2]
    simp [h.1]

theorem unstuff_stuffByte_append (b : Nat) (ys : List Nat) :
    unstuff (stuffByte b ++ ys) = b :: unstuff ys := by
  by_cases h : b = kFlagByte ∨ b = kEscapeByte
  · rw [stuffByte_special b h, List.cons_append, List.cons_append, unstuff_esc_cons,
      Nat.xor_assoc, Nat.xor_self, Nat.xor_zero, List.nil_append]
  · push_neg at h
    rw [stuffByte_not_special b h.1 h.2, List.singleton_append, unstuff_lit_cons _ _ h.2]

theorem okBody_stuff (p : List Nat) : ∀ ys : List Nat, okBody (stuff p ++ ys) = okBody ys := by
  induction p with
  | nil => intro ys; rw [stuff, List.nil_append]
  | cons b r ih =>
    intro ys
    rw [stuff, List.append_assoc, okBody_stuffByte_append, ih]

theorem okBody_stuff_nil (p : List Nat) : okBody (stuff p) = true := by
  have h := okBody_stuff p []
  rw [List.append_nil] at h
  rw [h]
  rfl

theorem unstuff_stuff (p : List Nat) : ∀ ys, unstuff (stuff p ++ ys) = p ++ unstuff ys := by
  induction p with
  | nil => intro ys; rw [stuff, List.nil_append, List.nil_append]
  | cons b r ih =>
    intro ys
    rw [stuff, List.append_assoc, unstuff_stuffByte_append, ih, List.cons_append]

theorem unstuff_stuff_nil (p : List Nat) : unstuff (stuff p) = p := by
  have h := unstuff_stuff p []
  rw [List.append_nil] at h
  rw [h, show unstuff [] = [] from rfl, List.append_nil]

theorem byteSum_append (xs ys : List Nat) : byteSum (xs ++ ys) = byteSum xs + byteSum ys := by
  induction xs with
  | nil => simp [byteSum]
  | cons b r ih => simp [byteSum, ih, Nat.add_assoc]

theorem fcs_checkBytes (c : Nat) : fcsValue (checkBytes c) = c := by
  simp [checkBytes, fcsValue]
  omega

theorem finishFrame_split (u chk : List Nat) (h : chk.length = 2) :
    finishFrame (u ++ chk) =
      (if checksum16 u = fcsValue chk then [DecodeEvent.frameReceived u]
       else [DecodeEvent.integrityCheckFailed]) := by
  have hlen : (u ++ chk).length - 2 = u.length := by simp [h]
  simp only [finishFrame, hlen, List.take_left, List.drop_left]

/-- The round-trip core: a payload whose decode-buffer footprint (payload
plus the two check bytes) fits in the buffer is delivered back exactly. -/
theorem decode_encode (p : List Nat) (hlen : p.length + 2 ≤ kMaxFrameSize) :
    decodeBytes initState (encode p) = (initState, [DecodeEvent.frameReceived p]) := by
  have hbody : okBody (stuff p ++ stuff (checkBytes (checksum16 p))) = true := by
    rw [okBody_stuff, okBody_stuff_nil]
  have hun : unstuff (stuff p ++ stuff (checkBytes (checksum16 p))) =
      p ++ checkBytes (checksum16 p) := by
    rw [unstuff_stuff, unstuff_stuff_nil]
  have hulen : (unstuff (stuff p ++ stuff (checkBytes (checksum16 p)))).length =
      p.length + 2 := by
    rw [hun]
    simp [checkBytes]
  show decodeBytes initState
      (kFlagByte :: (stuff p ++ stuff (checkBytes (checksum16 p)) ++ [kFlagByte])) = _
  rw [frameFeed _ hbody (by omega) (by omega)]
  rw [hun, finishFrame_split _ _ (by simp [checkBytes]), fcs_checkBytes]
  simp

/-! ### Plain byte runs (no delimiter, no escape) -/

theorem okBody_of_plain (bs : List Nat) (h : ∀ b ∈ bs, b ≠ kFlagByte ∧ b ≠ kEscapeByte) :
    okBody bs = true := by
  induction bs with
  | nil => rfl
  | cons b r ih =>
    have hb := h b (List.mem_cons_self b r)
    rw [okBody_lit_cons _ _ hb.2, Bool.and_eq_true, bne_iff_ne]
    exact ⟨hb.1, ih fun x hx => h x (List.mem_cons_of_mem b hx)⟩

theorem unstuff_of_plain (bs : List Nat) (h : ∀ b ∈ bs, b ≠ kEscapeByte) :
    unstuff bs = bs := by
  induction bs with
  | nil => rfl
  | cons b r ih =>
    rw [unstuff_lit_cons _ _ (h b (List.mem_cons_self b r)),
      ih fun x hx => h x (List.mem_cons_of_mem b hx)]

/-- A start delimiter followed by an over-long run of plain bytes: one
overflow notification and the decoder ends idle. -/
theorem overflowRun (bs : List Nat) (hlen : kMaxFrameSize < bs.length)
    (hplain : ∀ b ∈ bs, b ≠ kFlagByte ∧ b ≠ kEscapeByte) :
    decodeBytes initState (kFlagByte :: bs) = (initState, [DecodeEvent.frameOverflow]) := by
  rw [decodeBytes_cons_of _ _ _ _ _ (decodeByte_start initState rfl)]
  rw [overflowFeed bs [] (okBody_of_plain bs hplain) (by simp [kMaxFrameSize])
    (by rw [unstuff_of_plain bs fun x hx => (hplain x hx).2]; simpa using hlen)]
  rfl

/-- After any nonempty prefix of an encoded frame is lost (for example to a
`Deinit`/`Init` cycle), the remaining suffix produces no event at all from
an idle decoder. -/
theorem drop_encode_no_events (p : List Nat) (k' : Nat) :
    (decodeBytes initState ((encode p).drop (k' + 1))).2 = [] := by
  have hbody : okBody (stuff p ++ stuff (checkBytes (checksum16 p))) = true := by
    rw [okBody_stuff, okBody_stuff_nil]
  show (decodeBytes initState
    ((kFlagByte :: ((stuff p ++ stuff (checkBytes (checksum16 p))) ++ [kFlagByte])).drop
      (k' + 1))).2 = []
  rw [List.drop_succ_cons]
  by_cases hk : k' ≤ (stuff p ++ stuff (checkBytes (checksum16 p))).length
  · rw [List.drop_append_of_le_length hk]
    have hnf : ∀ b ∈ (stuff p ++ stuff (checkBytes (checksum16 p))).drop k', b ≠ kFlagByte :=
      fun b hbmem => okBody_no_flag _ hbody b (List.drop_subset _ _ hbmem)
    rw [decodeBytes_append_of _ _ _ _ _ (discardFeed _ hnf)]
    rw [decodeBytes_cons_of _ _ _ _ _ (decodeByte_start initState rfl), decodeBytes_nil]
    rfl
  · rw [List.drop_eq_nil_of_le (by
      simp only [List.length_append, List.length_cons, List.length_nil] at hk ⊢; omega)]
    rfl

/-! ### Encoded length bounds -/

theorem stuffByte_length (b : Nat) : (stuffByte b).length ≤ 2 := by
  by_cases h : b = kFlagByte ∨ b = kEscapeByte
  · rw [stuffByte_special b h]
    simp
  · push_neg at h
    rw [stuffByte_not_special b h.1 h.2]
    simp

theorem stuff_length (p : List Nat) : (stuff p).length ≤ 2 * p.length := by
  induction p with
  | nil => simp [stuff]
  | cons b r ih =>
    rw [stuff, List.length_append]
    have hb := stuffByte_length b
    simp only [List.length_cons]
    omega

theorem encode_length (p : List Nat) : (encode p).length ≤ 2 * p.length + 6 := by
  have h1 := stuff_length p
  have h2 := stuff_length (checkBytes (checksum16 p))
  have h3 : (checkBytes (checksum16 p)).length = 2 := by simp [checkBytes]
  rw [h3] at h2
  simp only [encode, List.length_cons, List.length_append, List.length_nil]
  omega

/-! ### Every delivered frame fits the decode buffer -/

theorem decodeByte_inv (st : DecoderState) (b : Nat) (h : st.buffer.length ≤ kMaxFrameSize) :
    (decodeByte st b).1.buffer.length ≤ kMaxFrameSize ∧
    (∀ pl, DecodeEvent.frameReceived pl ∈ (decodeByte st b).2 →
      pl.length ≤ kMaxFrameSize) := by
  simp only [decodeByte, appendByte, finishFrame]
  split_ifs with h1 h2 h3 h4 h5 h6 h7 h8 h9 <;>
    simp_all [initState, List.length_take] <;> omega

theorem decodeBytes_inv (bs : List Nat) : ∀ st : DecoderState,
    st.buffer.length ≤ kMaxFrameSize →
    ((decodeBytes st bs).1.buffer.length ≤ kMaxFrameSize ∧
      ∀ pl, DecodeEvent.frameReceived pl ∈ (decodeBytes st bs).2 →
        pl.length ≤ kMaxFrameSize) := by
  induction bs with
  | nil =>
    intro st h
    exact ⟨h, by simp [decodeBytes_nil]⟩
  | cons b r ih =>
    intro st h
    obtain ⟨h1, h2⟩ := decodeByte_inv st b h
    obtain ⟨h3, h4⟩ := ih (decodeByte st b).1 h1
    constructor
    · rw [decodeBytes_cons]
      exact h3
    · rw [decodeBytes_cons]
      intro pl hpl
      simp only [List.mem_append] at hpl
      rcases hpl with hpl | hpl
      · exact h2 pl hpl
      · exact h4 pl hpl

/-! ### Positional decomposition of the stuffed stream -/

theorem set_append_left (xs ys : List Nat) : ∀ n a, n < xs.length →
    (xs ++ ys).set n a = xs.set n a ++ ys := by
  induction xs with
  | nil => intro n a h; simp at h
  | cons c r ih =>
    intro n a h
    cases n with
    | zero => rfl
    | succ m =>
      rw [List.cons_append, List.set_cons_succ, List.set_cons_succ,
        ih m a (by simpa using h), List.cons_append]

theorem set_append_right (xs ys : List Nat) : ∀ n a,
    (xs ++ ys).set (xs.length + n) a = xs ++ ys.set n a := by
  induction xs with
  | nil => intro n a; simp
  | cons c r ih =>
    intro n a
    rw [List.cons_append, List.length_cons]
    rw [show r.length + 1 + n = (r.length + n) + 1 by omega]
    rw [List.set_cons_succ, ih n a, List.cons_append]

theorem getD_append_left (xs ys : List Nat) : ∀ n, n < xs.length →
    (xs ++ ys).getD n 0 = xs.getD n 0 := by
  induction xs with
  | nil => intro n h; simp at h
  | cons c r ih =>
    intro n h
    cases n with
    | zero => rfl
    | succ m =>
      rw [List.cons_append, List.getD_cons_succ, List.getD_cons_succ, ih m (by simpa using h)]

theorem getD_append_right (xs ys : List Nat) : ∀ n,
    (xs ++ ys).getD (xs.length + n) 0 = ys.getD n 0 := by
  induction xs with
  | nil => intro n; simp
  | cons c r ih =>
    intro n
    rw [List.cons_append, List.length_cons]
    rw [show r.length + 1 + n = (r.length + n) + 1 by omega]
    rw [List.getD_cons_succ, ih n]

/-- Any index into the stuffed stream lands inside the chunk produced for
one specific payload byte: the payload splits around that byte, and both
the read and the overwrite of the stream at that index happen inside that
byte's chunk. -/
theorem stuffSplit (p : List Nat) : ∀ i, i < (stuff p).length →
    ∃ pa b pb j, p = pa ++ b :: pb ∧ j < (stuffByte b).length ∧
      i = (stuff pa).length + j ∧
      (∀ x, (stuff p).set i x = stuff pa ++ ((stuffByte b).set j x ++ stuff pb)) ∧
      (stuff p).getD i 0 = (stuffByte b).getD j 0 := by
  induction p with
  | nil => intro i h; rw [stuff] at h; simp at h
  | cons c r ih =>
    intro i h
    by_cases hc : i < (stuffByte c).length
    · refine ⟨[], c, r, i, rfl, hc, by simp [stuff], ?_, ?_⟩
      · intro x
        show (stuffByte c ++ stuff r).set i x = stuff [] ++ ((stuffByte c).set i x ++ stuff r)
        rw [set_append_left _ _ i x hc, stuff, List.nil_append]
      · show (stuffByte c ++ stuff r).getD i 0 = (stuffByte c).getD i 0
        rw [getD_append_left _ _ i hc]
    · push_neg at hc
      have h' : i - (stuffByte c).length < (stuff r).length := by
        rw [stuff, List.length_append] at h
        omega
      obtain ⟨pa, b, pb, j, hp, hj, hidx, hset, hget⟩ := ih (i - (stuffByte c).length) h'
      have hieq : i = (stuffByte c).length + (i - (stuffByte c).length) := by omega
      refine ⟨c :: pa, b, pb, j, by rw [hp]; rfl, hj, ?_, ?_, ?_⟩
      · show i = (stuffByte c ++ stuff pa).length + j
        rw [List.length_append]
        omega
      · intro x
        show (stuffByte c ++ stuff r).set i x =
          (stuffByte c ++ stuff pa) ++ ((stuffByte b).set j x ++ stuff pb)
        rw [hieq, set_append_right, hset x, List.append_assoc]
      · show (stuffByte c ++ stuff r).getD i 0 = (stuffByte b).getD j 0
        rw [hieq, getD_append_right, hget]

/-! ### A single-bit flip always breaks the 16-bit check -/

theorem mod_ne_of_testBit_ne (a b k : Nat) (hk : k < 16)
    (h : a.testBit k ≠ b.testBit k) : a % 65536 ≠ b % 65536 := by
  intro he
  have h16 : (65536 : Nat) = 2 ^ 16 := by norm_num
  rw [h16] at he
  have h2 := congrArg (fun x => Nat.testBit x k) he
  simp only [Nat.testBit_mod_two_pow, hk, decide_True, Bool.true_and] at h2
  exact h h2

theorem xor_two_pow_testBit (b k : Nat) : (b ^^^ 2 ^ k).testBit k = !(b.testBit k) := by
  rw [Nat.testBit_xor, Nat.testBit_two_pow_self]
  cases b.testBit k <;> rfl

theorem checksum16_mid (pa pb : List Nat) (y : Nat) :
    checksum16 (pa ++ y :: pb) = (byteSum pa + (y + byteSum pb)) % 65536 := by
  rw [checksum16, byteSum_append]
  rfl

theorem checksum16_mid2 (pa pb : List Nat) (x t : Nat) :
    checksum16 (pa ++ x :: t :: pb) = (byteSum pa + (x + (t + byteSum pb))) % 65536 := by
  rw [checksum16, byteSum_append]
  rfl

/-- Flipping one bit of a payload byte changes the 16-bit check. -/
theorem checksum16_flip_ne (pa pb : List Nat) (b k : Nat) (hk : k < 16) :
    checksum16 (pa ++ (b ^^^ 2 ^ k) :: pb) ≠ checksum16 (pa ++ b :: pb) := by
  rw [checksum16_mid, checksum16_mid]
  intro h
  have hx : (b ^^^ 2 ^ k) % 65536 = b % 65536 := by omega
  refine mod_ne_of_testBit_ne _ _ k hk ?_ hx
  rw [xor_two_pow_testBit]
  cases b.testBit k <;> simp

/-- Flipping a bit of the escape marker turns the pair into two literal
bytes whose sum cannot reproduce the original payload byte. -/
theorem checksum16_escflip_ne (pa pb : List Nat) (b k : Nat) (hk : k < 8)
    (hb : b = kFlagByte ∨ b = kEscapeByte) :
    checksum16 (pa ++ (kEscapeByte ^^^ 2 ^ k) :: (b ^^^ kXfrmByte) :: pb) ≠
      checksum16 (pa ++ b :: pb) := by
  rw [checksum16_mid2, checksum16_mid]
  intro h
  have hxlt : (125 ^^^ 2 ^ k : Nat) < 256 := by
    have h1 : (125 : Nat) < 2 ^ 8 := by decide
    have h2 : 2 ^ k < 2 ^ 8 := Nat.pow_lt_pow_right (by omega) hk
    exact Nat.xor_lt_two_pow h1 h2
  have hxne : (125 ^^^ 2 ^ k : Nat) ≠ 32 := by
    interval_cases k <;> decide
  rcases hb with rfl | rfl
  · have ht : kFlagByte ^^^ kXfrmByte = 94 := by decide
    rw [ht] at h
    simp only [kFlagByte, kEscapeByte] at h
    exact hxne (by omega)
  · have ht : kEscapeByte ^^^ kXfrmByte = 93 := by decide
    rw [ht] at h
    simp only [kEscapeByte] at h
    exact hxne (by omega)

/-- A delimited frame whose body unstuffs to some contents followed by the
check bytes of a value the contents do not sum to: exactly one
`IntegrityCheckFailed`, decoder idle again. -/
theorem mismatchFrame (body q : List Nat) (c : Nat) (hok : okBody body = true)
    (hun : unstuff body = q ++ checkBytes c)
    (hne : checksum16 q ≠ c) (hlen : q.length + 2 ≤ kMaxFrameSize) :
    decodeBytes initState (kFlagByte :: (body ++ [kFlagByte])) =
      (initState, [DecodeEvent.integrityCheckFailed]) := by
  have hulen : (unstuff body).length = q.length + 2 := by
    rw [hun]
    simp [checkBytes]
  rw [frameFeed body hok (by omega) (by omega)]
  rw [hun, finishFrame_split _ _ (by simp [checkBytes]), fcs_checkBytes]
  simp [hne]

/-- Overwriting an index inside the stuffed-payload area of an encoded
frame, expressed on the frame. -/
theorem encode_set_payload (p : List Nat) (i : Nat) (x : Nat) (hi : i < (stuff p).length) :
    (encode p).set (i + 1) x =
      kFlagByte :: ((stuff p).set i x ++ stuff (checkBytes (checksum16 p)) ++ [kFlagByte]) := by
  show (kFlagByte :: ((stuff p ++ stuff (checkBytes (checksum16 p))) ++ [kFlagByte])).set
      (i + 1) x = _
  rw [List.set_cons_succ]
  rw [set_append_left _ _ i x (by rw [List.length_append]; omega)]
  rw [set_append_left _ _ i x hi]

/-- Reading an index inside the stuffed-payload area of an encoded frame. -/
theorem encode_getD_payload (p : List Nat) (i : Nat) (hi : i < (stuff p).length) :
    (encode p).getD (i + 1) 0 = (stuff p).getD i 0 := by
  show (kFlagByte :: ((stuff p ++ stuff (checkBytes (checksum16 p))) ++ [kFlagByte])).getD
      (i + 1) 0 = _
  rw [List.getD_cons_succ]
  rw [getD_append_left _ _ i (by rw [List.length_append]; omega)]
  rw [getD_append_left _ _ i hi]

/-- Corrupting one byte of the stuffed-payload area of a valid encoded
frame by a single-bit flip whose result is neither the delimiter nor the
escape byte: the integrity check fails, no frame is delivered, and the
decoder is idle again. -/
theorem corrupt_decode (p : List Nat) (i k x : Nat)
    (hi : i < (stuff p).length) (hk : k < 8)
    (hx : x = (stuff p).getD i 0 ^^^ 2 ^ k)
    (hxf : x ≠ kFlagByte) (hxe : x ≠ kEscapeByte)
    (hplen : p.length + 3 ≤ kMaxFrameSize) :
    decodeBytes initState
      (kFlagByte :: ((stuff p).set i x ++ stuff (checkBytes (checksum16 p)) ++ [kFlagByte])) =
      (initState, [DecodeEvent.integrityCheckFailed]) := by
  obtain ⟨pa, b, pb, j, hp, hj, hidx, hset, hget⟩ := stuffSplit p i hi
  have hlenp : p.length = pa.length + (1 + pb.length) := by
    rw [hp, List.length_append, List.length_cons]
    omega
  rw [hset x]
  by_cases hbsp : b = kFlagByte ∨ b = kEscapeByte
  · -- the flipped byte sits inside an escaped two-byte chunk
    rw [stuffByte_special b hbsp] at hj hget
    rw [stuffByte_special b hbsp]
    have ht_ne_esc : b ^^^ kXfrmByte ≠ kEscapeByte := by
      rcases hbsp with rfl | rfl <;> decide
    have ht_ne_flag : b ^^^ kXfrmByte ≠ kFlagByte := by
      rcases hbsp with rfl | rfl <;> decide
    have hj2 : j < 2 := by simpa using hj
    interval_cases j
    · -- the escape marker itself is flipped: the pair turns into two literals
      rw [List.getD_cons_zero] at hget
      have hx' : x = kEscapeByte ^^^ 2 ^ k := by rw [hx, hget]
      have hchunk : ([kEscapeByte, b ^^^ kXfrmByte].set 0 x) = [x, b ^^^ kXfrmByte] := rfl
      rw [hchunk]
      have hm := mismatchFrame
        (stuff pa ++ ([x, b ^^^ kXfrmByte] ++ (stuff pb ++ stuff (checkBytes (checksum16 p)))))
        (pa ++ x :: (b ^^^ kXfrmByte) :: pb) (checksum16 p)
        (by
          rw [okBody_stuff, List.cons_append, okBody_lit_cons _ _ hxe,
            List.cons_append, okBody_lit_cons _ _ ht_ne_esc, List.nil_append,
            okBody_stuff, okBody_stuff_nil]
          simp [bne_iff_ne, hxf, ht_ne_flag])
        (by
          rw [unstuff_stuff, List.cons_append, unstuff_lit_cons _ _ hxe,
            List.cons_append, unstuff_lit_cons _ _ ht_ne_esc, List.nil_append,
            unstuff_stuff, unstuff_stuff_nil]
          simp)
        (by
          rw [hx', hp]
          exact checksum16_escflip_ne pa pb b k hk hbsp)
        (by
          simp only [List.length_append, List.length_cons]
          omega)
      simp only [List.append_assoc] at hm ⊢
      exact hm
    · -- the transformed literal of the pair is flipped
      rw [List.getD_cons_succ, List.getD_cons_zero] at hget
      have hx' : x = (b ^^^ kXfrmByte) ^^^ 2 ^ k := by rw [hx, hget]
      have hchunk : ([kEscapeByte, b ^^^ kXfrmByte].set 1 x) = [kEscapeByte, x] := rfl
      rw [hchunk]
      have hunx : x ^^^ kXfrmByte = b ^^^ 2 ^ k := by
        rw [hx', Nat.xor_assoc, Nat.xor_comm (2 ^ k) kXfrmByte, ← Nat.xor_assoc,
          Nat.xor_assoc b kXfrmByte kXfrmByte, Nat.xor_self, Nat.xor_zero]
      have hm := mismatchFrame
        (stuff pa ++ ([kEscapeByte, x] ++ (stuff pb ++ stuff (checkBytes (checksum16 p)))))
        (pa ++ (b ^^^ 2 ^ k) :: pb) (checksum16 p)
        (by
          rw [okBody_stuff, List.cons_append, List.cons_append, okBody_esc_cons,
            List.nil_append, okBody_stuff, okBody_stuff_nil]
          simp [bne_iff_ne, hxf])
        (by
          rw [unstuff_stuff, List.cons_append, List.cons_append, unstuff_esc_cons, hunx,
            List.nil_append, unstuff_stuff, unstuff_stuff_nil]
          simp)
        (by
          rw [hp]
          exact checksum16_flip_ne pa pb b k (by omega))
        (by
          simp only [List.length_append, List.length_cons]
          omega)
      simp only [List.append_assoc] at hm ⊢
      exact hm
  · -- the flipped byte is a verbatim payload byte
    push_neg at hbsp
    rw [stuffByte_not_special b hbsp.1 hbsp.2] at hj hget
    rw [stuffByte_not_special b hbsp.1 hbsp.2]
    have hj0 : j = 0 := by simpa using hj
    subst hj0
    rw [List.getD_cons_zero] at hget
    have hx' : x = b ^^^ 2 ^ k := by rw [hx, hget]
    have hchunk : ([b].set 0 x) = [x] := rfl
    rw [hchunk]
    have hm := mismatchFrame
      (stuff pa ++ ([x] ++ (stuff pb ++ stuff (checkBytes (checksum16 p)))))
      (pa ++ x :: pb) (checksum16 p)
      (by
        rw [okBody_stuff, List.cons_append, okBody_lit_cons _ _ hxe,
          List.nil_append, okBody_stuff, okBody_stuff_nil]
        simp [bne_iff_ne, hxf])
      (by
        rw [unstuff_stuff, List.cons_append, unstuff_lit_cons _ _ hxe,
          List.nil_append, unstuff_stuff, unstuff_stuff_nil]
        simp)
      (by
        rw [hx', hp]
        exact checksum16_flip_ne pa pb b k (by omega))
      (by
        simp only [List.length_append, List.length_cons]
        omega)
    simp only [List.append_assoc] at hm ⊢
    exact hm

/-! ### Replicated byte runs -/

theorem byteSum_replicate (n b : Nat) : byteSum (List.replicate n b) = n * b := by
  induction n with
  | zero => simp [byteSum]
  | succ m ih =>
    rw [List.replicate_succ]
    show b + byteSum (List.replicate m b) = (m + 1) * b
    rw [ih]
    ring

theorem stuff_replicate_plain (n b : Nat) (h1 : b ≠ kFlagByte) (h2 : b ≠ kEscapeByte) :
    stuff (List.replicate n b) = List.replicate n b := by
  induction n with
  | zero => rfl
  | succ m ih =>
    rw [List.replicate_succ, stuff, stuffByte_not_special b h1 h2, ih]
    rfl

theorem replicate_plain_mem (n b v1 v2 : Nat) (h1 : b ≠ v1) (h2 : b ≠ v2) :
    ∀ x ∈ List.replicate n b, x ≠ v1 ∧ x ≠ v2 := by
  intro x hx
  rw [List.mem_replicate] at hx
  rw [hx.2]
  exact ⟨h1, h2⟩

/-! ### Claims -/

/-- Claim C1 (amended): for every payload of length at most
`kMaxFrameSize - 2` (so that the payload plus the two check bytes fit the
2048-byte decode buffer), feeding the full output of `encode` to the
streaming decoder produces exactly one frame-received callback whose bytes
equal the payload, no error notification, and leaves the decoder idle. -/
theorem c1_roundtrip (p : List Nat) (hlen : p.length + 2 ≤ kMaxFrameSize) :
    decodeBytes initState (encode p) = (initState, [DecodeEvent.frameReceived p]) :=
  decode_encode p hlen

theorem c1_roundtrip_witness :
    decodeBytes initState (encode [1, 2, 126, 3]) =
      (initState, [DecodeEvent.frameReceived [1, 2, 126, 3]]) :=
  c1_roundtrip [1, 2, 126, 3] (by decide)

/-- Claim C1 counterexample: the payload of 2047 zero bytes satisfies the
claim's bound `len(p) ≤ kMaxFrameSize`, yet decoding its encoding overflows
the 2048-byte buffer (2047 payload bytes plus two check bytes), yielding a
`FrameOverflow` instead of the claimed frame callback. -/
theorem c1_roundtrip_cex :
    (List.replicate 2047 (0:Nat)).length ≤ kMaxFrameSize ∧
    (decodeBytes initState (encode (List.replicate 2047 0))).2 =
      [DecodeEvent.frameOverflow] ∧
    decodeBytes initState (encode (List.replicate 2047 0)) ≠
      (initState, [DecodeEvent.frameReceived (List.replicate 2047 0)]) := by
  have hsum : checksum16 (List.replicate 2047 (0:Nat)) = 0 := by
    rw [checksum16, byteSum_replicate]
  have hrep : List.replicate 2047 (0:Nat) ++ List.replicate 2 0 = List.replicate 2049 0 := by
    rw [← List.replicate_add]
  have hbody : stuff (List.replicate 2047 (0:Nat)) ++
      stuff (checkBytes (checksum16 (List.replicate 2047 0))) = List.replicate 2049 0 := by
    rw [hsum, stuff_replicate_plain 2047 0 (by decide) (by decide),
      show stuff (checkBytes 0) = List.replicate 2 0 from by decide]
    exact hrep
  have hmem : ∀ x ∈ List.replicate 2049 (0:Nat), x ≠ kFlagByte ∧ x ≠ kEscapeByte :=
    replicate_plain_mem 2049 0 kFlagByte kEscapeByte (by decide) (by decide)
  have hmain : decodeBytes initState (encode (List.replicate 2047 0)) =
      (⟨true, [], false⟩, [DecodeEvent.frameOverflow]) := by
    show decodeBytes initState (kFlagByte :: ((stuff (List.replicate 2047 0) ++
      stuff (checkBytes (checksum16 (List.replicate 2047 0)))) ++ [kFlagByte])) = _
    rw [hbody]
    exact frameFeedOverflow _ (okBody_of_plain _ hmem)
      (by
        rw [unstuff_of_plain _ fun x hx => (hmem x hx).2, List.length_replicate]
        decide)
  refine ⟨by rw [List.length_replicate]; decide, by rw [hmain], ?_⟩
  rw [hmain]
  intro hco
  have hco2 := congrArg (fun z => z.1.isDecoding) hco
  simp [initState] at hco2

/-- Claim C2: for a payload consisting only of delimiter and escape bytes,
the encoded output has the wire shape delimiter, stuffed payload, stuffed
check value, delimiter, and the stuffed middle contains no unescaped
delimiter byte — indeed no delimiter byte at all — so the only delimiters
are the two frame boundaries. -/
theorem c2_escaping (p : List Nat) (_hde : ∀ b ∈ p, b = kFlagByte ∨ b = kEscapeByte) :
    encode p =
      kFlagByte :: ((stuff p ++ stuff (checkBytes (checksum16 p))) ++ [kFlagByte]) ∧
    kFlagByte ∉ stuff p ++ stuff (checkBytes (checksum16 p)) := by
  refine ⟨rfl, fun hmem => ?_⟩
  have hbody : okBody (stuff p ++ stuff (checkBytes (checksum16 p))) = true := by
    rw [okBody_stuff, okBody_stuff_nil]
  exact okBody_no_flag _ hbody kFlagByte hmem rfl

theorem c2_escaping_witness :
    encode [126, 125] =
      kFlagByte :: ((stuff [126, 125] ++
        stuff (checkBytes (checksum16 [126, 125]))) ++ [kFlagByte]) ∧
    kFlagByte ∉ stuff [126, 125] ++ stuff (checkBytes (checksum16 [126, 125])) :=
  c2_escaping [126, 125] (by decide)

/-- Claim C3 (amended): decoding is invariant under fragmentation — for a
payload within the decodable bound `kMaxFrameSize - 2` and any partition of
its encoding into chunks fed to successive decode calls, the delivered
frames are exactly the payload, the same as a single call. -/
theorem c3_fragmentation (p : List Nat) (chunks : List (List Nat))
    (hj : chunks.flatten = encode p) (hlen : p.length + 2 ≤ kMaxFrameSize) :
    decodeChunks initState chunks = (initState, [DecodeEvent.frameReceived p]) := by
  rw [decodeChunks_eq_join, hj]
  exact decode_encode p hlen

theorem c3_fragmentation_witness :
    decodeChunks initState [[126], [1], [125], [94], [127], [0], [126]] =
      (initState, [DecodeEvent.frameReceived [1, 126]]) :=
  c3_fragmentation [1, 126] [[126], [1], [125], [94], [127], [0], [126]]
    (by decide) (by decide)

/-- Claim C3 counterexample: the payload of 2048 bytes of value 2 satisfies
the claim's bound `len(p) ≤ kMaxFrameSize`, and feeding its whole encoding
as a single chunk (one partition of it) yields a `FrameOverflow`, not the
claimed frame. -/
theorem c3_fragmentation_cex :
    [encode (List.replicate 2048 (2:Nat))].flatten = encode (List.replicate 2048 2) ∧
    (List.replicate 2048 (2:Nat)).length ≤ kMaxFrameSize ∧
    (decodeChunks initState [encode (List.replicate 2048 2)]).2 =
      [DecodeEvent.frameOverflow] ∧
    decodeChunks initState [encode (List.replicate 2048 2)] ≠
      (initState, [DecodeEvent.frameReceived (List.replicate 2048 2)]) := by
  have hsum : checksum16 (List.replicate 2048 (2:Nat)) = 4096 := by
    rw [checksum16, byteSum_replicate]
  have hmem : ∀ x ∈ List.replicate 2048 (2:Nat) ++ [0, 16],
      x ≠ kFlagByte ∧ x ≠ kEscapeByte := by
    intro x hx
    rcases List.mem_append.mp hx with hx | hx
    · rw [List.mem_replicate] at hx
      rw [hx.2]
      exact ⟨by decide, by decide⟩
    · simp at hx
      rcases hx with rfl | rfl
      · exact ⟨by decide, by decide⟩
      · exact ⟨by decide, by decide⟩
  have hmain : decodeBytes initState (encode (List.replicate 2048 2)) =
      (⟨true, [], false⟩, [DecodeEvent.frameOverflow]) := by
    show decodeBytes initState (kFlagByte :: ((stuff (List.replicate 2048 2) ++
      stuff (checkBytes (checksum16 (List.replicate 2048 2)))) ++ [kFlagByte])) = _
    rw [hsum, stuff_replicate_plain 2048 2 (by decide) (by decide),
      show stuff (checkBytes 4096) = [0, 16] from by decide]
    exact frameFeedOverflow _ (okBody_of_plain _ hmem)
      (by
        rw [unstuff_of_plain _ fun x hx => (hmem x hx).2, List.length_append,
          List.length_replicate]
        decide)
  have hch : decodeChunks initState [encode (List.replicate 2048 2)] =
      (⟨true, [], false⟩, [DecodeEvent.frameOverflow]) := by
    rw [decodeChunks_eq_join, List.flatten_cons, List.flatten_nil, List.append_nil]
    exact hmain
  refine ⟨by rw [List.flatten_cons, List.flatten_nil, List.append_nil],
    by rw [List.length_replicate]; decide, by rw [hch], ?_⟩
  rw [hch]
  intro hco
  have hco2 := congrArg (fun z => z.1.isDecoding) hco
  simp [initState] at hco2

/-- Claim C4: a start delimiter followed by more than `kMaxFrameSize`
non-delimiter, non-escape payload bytes never invokes the frame-received
callback, yields exactly one `FrameOverflow` notification, and leaves the
decoder idle, so that a subsequent well-formed encoded frame (within the
decodable bound) still decodes to exactly one correct frame callback. -/
theorem c4_overflow (bs q : List Nat)
    (hlen : kMaxFrameSize < bs.length)
    (hplain : ∀ b ∈ bs, b ≠ kFlagByte ∧ b ≠ kEscapeByte)
    (hq : q.length + 2 ≤ kMaxFrameSize) :
    decodeBytes initState (kFlagByte :: bs) = (initState, [DecodeEvent.frameOverflow]) ∧
    decodeBytes initState ((kFlagByte :: bs) ++ encode q) =
      (initState, [DecodeEvent.frameOverflow, DecodeEvent.frameReceived q]) := by
  have h1 := overflowRun bs hlen hplain
  refine ⟨h1, ?_⟩
  rw [decodeBytes_append_of _ _ _ _ _ h1, decode_encode q hq]
  rfl

theorem c4_overflow_witness :
    decodeBytes initState (kFlagByte :: List.replicate 2049 7) =
      (initState, [DecodeEvent.frameOverflow]) ∧
    decodeBytes initState ((kFlagByte :: List.replicate 2049 7) ++ encode [5]) =
      (initState, [DecodeEvent.frameOverflow, DecodeEvent.frameReceived [5]]) :=
  c4_overflow (List.replicate 2049 7) [5]
    (by rw [List.length_replicate]; decide)
    (replicate_plain_mem 2049 7 kFlagByte kEscapeByte (by decide) (by decide))
    (by decide)

/-- Claim C5 (amended): for every payload of length at most
`kMaxFrameSize - 3` (so that even the one-byte-longer corrupted contents
still fit the decode buffer) and every single-bit flip of one byte of the
stuffed-payload area of the encoded frame whose result is neither the
delimiter nor the escape byte, the corrupted sequence yields exactly one
`IntegrityCheckFailed` notification and no frame callback, and the decoder
is idle again so the next valid frame decodes correctly. -/
theorem c5_corruption (p q : List Nat) (i k x : Nat)
    (hi : i < (stuff p).length) (hk : k < 8)
    (hx : x = (encode p).getD (i + 1) 0 ^^^ 2 ^ k)
    (hxf : x ≠ kFlagByte) (hxe : x ≠ kEscapeByte)
    (hplen : p.length + 3 ≤ kMaxFrameSize) (hq : q.length + 2 ≤ kMaxFrameSize) :
    decodeBytes initState ((encode p).set (i + 1) x) =
      (initState, [DecodeEvent.integrityCheckFailed]) ∧
    decodeBytes initState ((encode p).set (i + 1) x ++ encode q) =
      (initState, [DecodeEvent.integrityCheckFailed, DecodeEvent.frameReceived q]) := by
  have hx' : x = (stuff p).getD i 0 ^^^ 2 ^ k := by
    rw [hx, encode_getD_payload p i hi]
  have h1 : decodeBytes initState ((encode p).set (i + 1) x) =
      (initState, [DecodeEvent.integrityCheckFailed]) := by
    rw [encode_set_payload p i x hi]
    exact corrupt_decode p i k x hi hk hx' hxf hxe hplen
  refine ⟨h1, ?_⟩
  rw [decodeBytes_append_of _ _ _ _ _ h1, decode_encode q hq]
  rfl

theorem c5_corruption_witness :
    decodeBytes initState ((encode [1, 2, 3]).set 2 3) =
      (initState, [DecodeEvent.integrityCheckFailed]) ∧
    decodeBytes initState ((encode [1, 2, 3]).set 2 3 ++ encode [7]) =
      (initState, [DecodeEvent.integrityCheckFailed, DecodeEvent.frameReceived [7]]) :=
  c5_corruption [1, 2, 3] [7] 1 0 3 (by decide) (by decide) (by decide)
    (by decide) (by decide) (by decide) (by decide)

/-- Claim C5 counterexample: the all-delimiter payload of length 2046 is
otherwise valid (its encoding decodes to exactly one frame), and flipping
bit 0 of the first stuffed-payload byte (the escape marker, which becomes
0x7C — neither delimiter nor escape) makes the unescaped contents one byte
longer, so decoding overflows the buffer: the result is a `FrameOverflow`,
not the claimed `IntegrityCheckFailed`. -/
theorem c5_corruption_cex :
    decodeBytes initState (encode (List.replicate 2046 kFlagByte)) =
      (initState, [DecodeEvent.frameReceived (List.replicate 2046 kFlagByte)]) ∧
    (encode (List.replicate 2046 kFlagByte)).getD 1 0 ^^^ 2 ^ 0 = 124 ∧
    (124 : Nat) ≠ kFlagByte ∧ (124 : Nat) ≠ kEscapeByte ∧
    (decodeBytes initState ((encode (List.replicate 2046 kFlagByte)).set 1 124)).2 =
      [DecodeEvent.frameOverflow] := by
  have hdec : stuff (List.replicate 2046 kFlagByte) =
      kEscapeByte :: 94 :: stuff (List.replicate 2045 kFlagByte) := by
    rw [List.replicate_succ, stuff, stuffByte_special kFlagByte (Or.inl rfl)]
    rfl
  have hi : 0 < (stuff (List.replicate 2046 kFlagByte)).length := by
    rw [hdec, List.length_cons]
    omega
  have hvalid := decode_encode (List.replicate 2046 kFlagByte)
    (by rw [List.length_replicate]; decide)
  refine ⟨hvalid, ?_, by decide, by decide, ?_⟩
  · rw [encode_getD_payload _ 0 hi, hdec, List.getD_cons_zero]
    decide
  · rw [encode_set_payload _ 0 124 hi, hdec, List.set_cons_zero]
    have hrest : okBody (stuff (List.replicate 2045 kFlagByte) ++
        stuff (checkBytes (checksum16 (List.replicate 2046 kFlagByte)))) = true := by
      rw [okBody_stuff, okBody_stuff_nil]
    have hbody : okBody (124 :: 94 :: (stuff (List.replicate 2045 kFlagByte) ++
        stuff (checkBytes (checksum16 (List.replicate 2046 kFlagByte))))) = true := by
      rw [okBody_lit_cons _ _ (by decide), okBody_lit_cons _ _ (by decide), hrest]
      decide
    have hun : unstuff (124 :: 94 :: (stuff (List.replicate 2045 kFlagByte) ++
        stuff (checkBytes (checksum16 (List.replicate 2046 kFlagByte))))) =
        124 :: 94 :: (List.replicate 2045 kFlagByte ++
          checkBytes (checksum16 (List.replicate 2046 kFlagByte))) := by
      rw [unstuff_lit_cons _ _ (by decide), unstuff_lit_cons _ _ (by decide),
        unstuff_stuff, unstuff_stuff_nil]
    have hflow := frameFeedOverflow
      (124 :: 94 :: (stuff (List.replicate 2045 kFlagByte) ++
        stuff (checkBytes (checksum16 (List.replicate 2046 kFlagByte)))))
      hbody
      (by
        rw [hun]
        simp only [List.length_cons, List.length_append, List.length_replicate, checkBytes,
          List.length_nil]
        decide)
    rw [show (124 :: 94 :: stuff (List.replicate 2045 kFlagByte)) ++
        stuff (checkBytes (checksum16 (List.replicate 2046 kFlagByte))) ++ [kFlagByte] =
        (124 :: 94 :: (stuff (List.replicate 2045 kFlagByte) ++
          stuff (checkBytes (checksum16 (List.replicate 2046 kFlagByte))))) ++ [kFlagByte]
      from rfl]
    rw [hflow]

/-- Claim C6 (amended): `SendFrame` never fails with `NoBufferSpace` for a
length within `kMaxFrameSize` — the scratch buffer is sized for the
worst-case stuffed expansion of a max-size frame, so such frames always
fit (hence a length exceeding `kMaxFrameSize` does not necessarily fail);
`NoBufferSpace` can only arise for a length exceeding `kMaxFrameSize`, and
on that failure nothing is sent and the interface state is unchanged. -/
theorem c6_send (ifc : Interface) (p : List Nat) :
    (p.length ≤ kMaxFrameSize → sendFrame ifc p = (ifc, SendOutcome.sent (encode p))) ∧
    ((sendFrame ifc p).2 = SendOutcome.noBufs → kMaxFrameSize < p.length) ∧
    (sendFrame ifc p).1 = ifc := by
  refine ⟨?_, ?_, ?_⟩
  · intro hlen
    have h := encode_length p
    have hfit : (encode p).length ≤ kEncodeBufferSize := by
      simp only [kEncodeBufferSize, kMaxFrameSize] at *
      omega
    rw [sendFrame, if_pos hfit]
  · intro hnb
    rw [sendFrame] at hnb
    by_cases hfit : (encode p).length ≤ kEncodeBufferSize
    · rw [if_pos hfit] at hnb
      simp at hnb
    · by_contra hle
      push_neg at hle
      have h := encode_length p
      apply hfit
      simp only [kEncodeBufferSize, kMaxFrameSize] at *
      omega
  · rw [sendFrame]
    split_ifs <;> rfl

theorem c6_send_witness :
    sendFrame Interface.mkNew [1, 2] = (Interface.mkNew, SendOutcome.sent (encode [1, 2])) :=
  (c6_send Interface.mkNew [1, 2]).1 (by decide)

/-- Claim C6 counterexample: a frame of 2049 zero bytes exceeds
`kMaxFrameSize`, yet `SendFrame` succeeds — its encoding (2053 bytes) fits
the worst-case-sized scratch buffer — so a length exceeding the maximum
frame size does not fail. -/
theorem c6_send_cex :
    kMaxFrameSize < (List.replicate 2049 (0:Nat)).length ∧
    sendFrame Interface.mkNew (List.replicate 2049 0) =
      (Interface.mkNew, SendOutcome.sent (encode (List.replicate 2049 0))) ∧
    (sendFrame Interface.mkNew (List.replicate 2049 0)).2 ≠ SendOutcome.noBufs := by
  have hsum : checksum16 (List.replicate 2049 (0:Nat)) = 0 := by
    rw [checksum16, byteSum_replicate]
  have hlen : (encode (List.replicate 2049 (0:Nat))).length = 2053 := by
    simp only [encode, List.length_cons, List.length_append, List.length_nil]
    rw [hsum, stuff_replicate_plain 2049 0 (by decide) (by decide), List.length_replicate,
      show (stuff (checkBytes 0)).length = 2 from by decide]
  have hsend : sendFrame Interface.mkNew (List.replicate 2049 0) =
      (Interface.mkNew, SendOutcome.sent (encode (List.replicate 2049 0))) := by
    rw [sendFrame, if_pos (by rw [hlen]; decide)]
  refine ⟨by rw [List.length_replicate]; decide, hsend, ?_⟩
  rw [hsend]
  exact fun hco => SendOutcome.noConfusion hco

/-- Claim C7: `Init` while a channel handle is already held fails with
`OT_ERROR_ALREADY` and leaves the interface untouched; after `Deinit`, a
subsequent `Init` (with the channel acquisition succeeding) succeeds and
resets the decoder state to idle, so the remaining bytes of a frame left
half-decoded before `Deinit` complete no frame after re-`Init`. -/
theorem c7_lifecycle (ifc : Interface) (fd fd' : Nat) (hopen : ifc.sockFd = some fd)
    (p : List Nat) (k : Nat) (hk : 1 ≤ k) :
    ifc.init (some fd') = (ifc, OtError.already) ∧
    ifc.deinit.init (some fd') = (⟨some fd', initState⟩, OtError.ok) ∧
    (decodeBytes (ifc.deinit.init (some fd')).1.decoder ((encode p).drop k)).2 = [] := by
  refine ⟨by simp [Interface.init, hopen], rfl, ?_⟩
  obtain ⟨k', rfl⟩ : ∃ k', k = k' + 1 := ⟨k - 1, by omega⟩
  show (decodeBytes initState ((encode p).drop (k' + 1))).2 = []
  exact drop_encode_no_events p k'

theorem c7_lifecycle_witness :
    Interface.init ⟨some 3, ⟨true, [9], false⟩⟩ (some 4) =
      (⟨some 3, ⟨true, [9], false⟩⟩, OtError.already) ∧
    (Interface.deinit ⟨some 3, ⟨true, [9], false⟩⟩).init (some 4) =
      (⟨some 4, initState⟩, OtError.ok) ∧
    (decodeBytes ((Interface.deinit ⟨some 3, ⟨true, [9], false⟩⟩).init
      (some 4)).1.decoder ((encode [1, 2]).drop 3)).2 = [] :=
  c7_lifecycle ⟨some 3, ⟨true, [9], false⟩⟩ 3 4 rfl [1, 2] 3 (by decide)

/-- Claim C8: when the single read performed by `Read` returns zero bytes
or an error, it is reported to the owner as a channel failure, the decoder
state is untouched, and no frame-received callback is invoked for that
call; `Read` performs no internal retry (the model consumes exactly one
read result per call). -/
theorem c8_read_failure (dec : DecoderState) (res : Option (List Nat))
    (h : res = Option.none ∨ res = some []) :
    readStep dec res = (dec, [], ReadOutcome.channelFailure) := by
  rcases h with rfl | rfl <;> rfl

theorem c8_read_failure_witness :
    readStep initState Option.none = (initState, [], ReadOutcome.channelFailure) :=
  c8_read_failure initState Option.none (Or.inl rfl)

/-- Claim C9 (amended): a start delimiter arriving while the decoder is
decoding with fewer than two bytes accumulated aborts the frame silently
(no callback and no error) and begins a new frame with the buffer reset;
with two or more bytes accumulated the delimiter is instead treated as the
end delimiter and finalizes the frame.  Noise bytes while idle (any byte
other than the delimiter) are discarded silently and do not affect the
decode of the next real frame. -/
theorem c9_resync (buf : List Nat) (hbuf : buf.length < 2)
    (noise : List Nat) (hnoise : ∀ b ∈ noise, b ≠ kFlagByte)
    (p : List Nat) (hp : p.length + 2 ≤ kMaxFrameSize) :
    decodeByte ⟨true, buf, false⟩ kFlagByte = (⟨true, [], false⟩, []) ∧
    decodeBytes initState (noise ++ encode p) =
      (initState, [DecodeEvent.frameReceived p]) := by
  refine ⟨decodeByte_flag_restart buf hbuf, ?_⟩
  rw [decodeBytes_append_of _ _ _ _ _ (discardFeed noise hnoise), decode_encode p hp]
  rfl

theorem c9_resync_witness :
    decodeByte ⟨true, [7], false⟩ kFlagByte = (⟨true, [], false⟩, []) ∧
    decodeBytes initState ([9, 10] ++ encode [1]) =
      (initState, [DecodeEvent.frameReceived [1]]) :=
  c9_resync [7] (by decide) [9, 10] (by decide) [1] (by decide)

/-- Claim C9 counterexample: a delimiter arriving while decoding with two
bytes already accumulated is not a silent abort beginning a new frame — it
finalizes the frame, and here issues an `IntegrityCheckFailed` error
notification for it, with the decoder idle rather than decoding. -/
theorem c9_resync_cex :
    decodeBytes initState [kFlagByte, 1, 2, kFlagByte] =
      (initState, [DecodeEvent.integrityCheckFailed]) ∧
    decodeBytes initState [kFlagByte, 1, 2, kFlagByte] ≠ (⟨true, [], false⟩, []) := by
  refine ⟨by decide, by decide⟩

/-- Claim C10: every frame delivered through the frame-received callback
from any byte stream fed to an initially idle decoder has length at most
`kMaxFrameSize`, the capacity of the decode buffer backing delivered
frames. -/
theorem c10_delivered_bounded (bs pl : List Nat)
    (h : DecodeEvent.frameReceived pl ∈ (decodeBytes initState bs).2) :
    pl.length ≤ kMaxFrameSize :=
  (decodeBytes_inv bs initState (by simp [initState])).2 pl h

theorem c10_delivered_bounded_witness : ([1, 2, 126, 3] : List Nat).length ≤ kMaxFrameSize :=
  c10_delivered_bounded (encode [1, 2, 126, 3]) [1, 2, 126, 3] (by decide)

end Hdlc
